import Mathlib

/-!
Verification development for the `ActivityStack` navigation core of the
typescene repository (`ActivityStack.ts`).  The data model and every
operation below are shallow embeddings of the TypeScript source: promise
chains collapse to sequential execution, signal emissions become an event
trace, and the module-level mutable variables (`_nextTransitionID`,
`_nextHistoryId`, `previousTransition`) become an explicit `Globals`
record threaded through every step.
-/

namespace Typescene

/-- Mirror of `ActivityTransition.Operation` from the source: Push, Replace or Pop. -/
inductive Operation : Type where
  | push
  | replace
  | pop
deriving DecidableEq

/-- The option/metadata fields of an `Activity` that the stack core reads:
`idn` models the object reference (reference equality = equal `idn`),
the four boolean flags mirror `options.isRootActivity` /
`options.isHubActivity` / `options.isTransient` /
`options.isBackgroundActivity`, `title` the optional title string, and
`classIds` the set of `Activity` classes the object is an `instanceof`. -/
structure AData where
  idn : Nat
  isRootActivity : Bool
  isHubActivity : Bool
  isTransient : Bool
  isBackgroundActivity : Bool
  title : Option String
  classIds : List Nat
deriving DecidableEq

/-- An `Activity` together with its declared `options.parentActivity`:
either no parent, a parent given as a specific `Activity` instance, or a
parent given as an `Activity` class (identified by a class id) whose
`getInstance()` factory yields the carried instance. -/
inductive Activity : Type where
  | base (d : AData)
  | instParent (d : AData) (p : Activity)
  | clsParent (d : AData) (cid : Nat) (ginst : Activity)
deriving DecidableEq

/-- The metadata record of an activity. -/
def Activity.data : Activity → AData
  | .base d => d
  | .instParent d _ => d
  | .clsParent d _ _ => d

def Activity.idn (a : Activity) : Nat := a.data.idn
def Activity.isRootActivity (a : Activity) : Bool := a.data.isRootActivity
def Activity.isHubActivity (a : Activity) : Bool := a.data.isHubActivity
def Activity.isTransient (a : Activity) : Bool := a.data.isTransient
def Activity.isBackgroundActivity (a : Activity) : Bool := a.data.isBackgroundActivity
def Activity.title (a : Activity) : Option String := a.data.title

/-- JavaScript reference equality `===` between two activities. -/
def Activity.sameRef (a b : Activity) : Bool := a.idn == b.idn

/-- JavaScript `a instanceof C` for an activity class `C` (a class id). -/
def Activity.isInstanceOf (a : Activity) (cid : Nat) : Bool :=
  a.data.classIds.contains cid

/-- Reference equality lifted to possibly-undefined values
(`undefined === undefined` is true in JavaScript). -/
def optSameRef : Option Activity → Option Activity → Bool
  | none, none => true
  | some a, some b => a.sameRef b
  | _, _ => false

/-- The argument of `upAsync` / `contains`: either a specific activity
instance or an `Activity` class. -/
inductive Target : Type where
  | inst (a : Activity)
  | cls (cid : Nat)
deriving DecidableEq

/-- The module-level mutable state of `ActivityStack.ts`:
`_nextTransitionID`, `_nextHistoryId` and `previousTransition` (kept as
the id of the last transition record created, shared by all stacks). -/
structure Globals where
  nextTransitionID : Nat
  nextHistoryId : Nat
  prevTransition : Option Nat
deriving DecidableEq

/-- The per-instance mutable state of one `ActivityStack`:
`_stack`, `topIndex` (`-1` when empty) and `_historyIds`. -/
structure StackCore where
  stack : List Activity
  topIndex : Int
  historyIds : List String
deriving DecidableEq

/-- An immutable `ActivityTransition` record.  `prev` holds the id of the
`previousTransition` record that was linked, if any. -/
structure Transition where
  tid : Nat
  op : Operation
  fromAct : Option Activity
  toAct : Option Activity
  prev : Option Nat
deriving DecidableEq

/-- One observable signal emission of the engine, in emission order.
`mutationE` marks the point where the structural change to
`stack`/`topIndex`/`historyIds` is applied. -/
inductive Ev : Type where
  | suspendingE (a : Activity)
  | resumingE (a : Activity)
  | startingE (a : Activity)
  | transitionE (tid : Nat)
  | mutationE
  | transitionSyncE (tid : Nat)
  | startedE (a : Activity)
  | resumedE (a : Activity)
  | suspendedE (a : Activity)
  | deactivatedE (a : Activity)
deriving DecidableEq

/-- Errors surfaced through the returned futures. -/
inductive TErr : Type where
  | noActivityToSuspend
  | handlerFailure
deriving DecidableEq

/-- Behaviour of the connected signal handlers: whether the handlers of
`Suspending` / `Resuming` / `Starting` on a given activity reject. -/
structure Handlers where
  suspendingFails : Activity → Bool
  resumingFails : Activity → Bool
  startingFails : Activity → Bool

/-- Handlers that never reject. -/
def okHandlers : Handlers :=
  { suspendingFails := fun _ => false
    resumingFails := fun _ => false
    startingFails := fun _ => false }

/-- JavaScript array read `stack[i]` (undefined for a negative or
out-of-range index). -/
def getAct (l : List Activity) (i : Int) : Option Activity :=
  if i < 0 then none else l.get? i.toNat

/-- The active region of the stack, indexes `0 .. topIndex`. -/
def StackCore.active (c : StackCore) : List Activity :=
  c.stack.take (c.topIndex + 1).toNat

/-- The `top` accessor: `stack[topIndex]`, undefined when `topIndex < 0`. -/
def StackCore.top (c : StackCore) : Option Activity :=
  getAct c.stack c.topIndex

/-- Embedding of `contains(activityOrClass)`: scan of the active region for a reference
match or an `instanceof` match (the source scans from `topIndex`
downward; only existence matters). -/
def StackCore.containsT (c : StackCore) : Target → Bool
  | .inst a => c.active.any fun x => x.sameRef a
  | .cls cid => c.active.any fun x => x.isInstanceOf cid

/-- Loop of `getParent`: examine index `n-1`, then descend.  `seen`
carries the `seenBefore` flag of the source. -/
def getParentLoop (stack : List Activity) (cid : Nat) (before : Option Activity) :
    Bool → Nat → Option Activity
  | _, 0 => none
  | seen, n + 1 =>
    let x := stack.get? n
    if (seen || before.isNone) &&
        (match x with | some a => a.isInstanceOf cid | none => false) then x
    else getParentLoop stack cid before (seen || optSameRef x before) n

/-- Embedding of `getParent(ActivityClass, before?)`: nearest activity strictly below
the foreground that is an instance of the class (only below `before`
when given). -/
def StackCore.getParent (c : StackCore) (cid : Nat) (before : Option Activity) :
    Option Activity :=
  let seen0 := optSameRef (getAct c.stack c.topIndex) before
  getParentLoop c.stack cid before seen0 c.topIndex.toNat

/-- Loop of the `title` accessor: first defined `title` at index `n-1`
scanning downward, as an optional value. -/
def titleFromOpt (stack : List Activity) : Nat → Option String
  | 0 => none
  | n + 1 =>
    match stack.get? n with
    | some a =>
      match a.title with
      | some t => some t
      | none => titleFromOpt stack n
    | none => titleFromOpt stack n

/-- The `title` accessor: title of the topmost activity that has a title
defined (`!== undefined`), or the empty string. -/
def StackCore.title (c : StackCore) : String :=
  (titleFromOpt c.stack (c.topIndex + 1).toNat).getD ""

/-- Embedding of `_findParents(activity, excludeTop?)`: walk the declared parent chain
upward from `head`, stopping at the first ancestor that is already
satisfied, accumulating the list of activities to push. -/
def findParentsLoop (c : StackCore) (excludeTop : Bool) :
    Activity → List Activity → List Activity
  | a@(.base _), acc => a :: acc
  | a@(.instParent _ p), acc =>
    if c.containsT (.inst p) && (!excludeTop || !optSameRef c.top (some p)) then
      a :: acc
    else findParentsLoop c excludeTop p (a :: acc)
  | a@(.clsParent _ cid ginst), acc =>
    if (!excludeTop &&
          (match c.top with | some t => t.isInstanceOf cid | none => false)) ||
        (c.getParent cid none).isSome then
      a :: acc
    else findParentsLoop c excludeTop ginst (a :: acc)

/-- Entry point of `_findParents`. -/
def findParents (c : StackCore) (a : Activity) (excludeTop : Bool) : List Activity :=
  findParentsLoop c excludeTop a []

/-- History id minted for a freshly pushed slot
(`_historyIdBase + _nextHistoryId++`; the random base is fixed here). -/
def historyIdString (n : Nat) : String := "_A" ++ toString n

/-- Embedding of `_historyIds.length = _stack.length`: truncate, or extend with empty
slots (the extended slot is always overwritten right after). -/
def resizeTo (l : List String) (n : Nat) : List String :=
  if n ≤ l.length then l.take n else l ++ List.replicate (n - l.length) ""

/-- The `Deactivated` emissions of the truncation loop: the entries above the
active region are popped top-first and each one not still contained in
the active region gets a `Deactivated` signal. -/
def deactivationEvents (active extras : List Activity) : List Ev :=
  extras.reverse.filterMap fun a =>
    if active.any (fun x => x.sameRef a) then none else some (.deactivatedE a)

/-- Placeholder for the value the source would push when `t.to` is
`undefined`; unreachable through the public operations (`Push`/`Replace`
always carry an activity). -/
def junkActivity : Activity := .base ⟨0, false, false, false, false, none, []⟩

/-- Result of `_processTransition`. -/
structure PTResult where
  res : Except TErr Transition
  g : Globals
  c : StackCore
  evs : List Ev

/-- Embedding of `_processTransition(to, op)`: create and chain the transition record,
short-circuit when `to` is already the foreground, otherwise emit
`Suspending`, then `Resuming`/`Starting`, wait for the handlers, and on
success commit the structural mutation between the `Transition` and
`TransitionSync` signals, ending with `Started`/`Resumed`/`Suspended`. -/
def processTransition (h : Handlers) (g : Globals) (c : StackCore)
    (toA : Option Activity) (op : Operation) : PTResult :=
  let t : Transition :=
    { tid := g.nextTransitionID, op := op, fromAct := c.top, toAct := toA
      prev := g.prevTransition }
  let g1 : Globals :=
    { nextTransitionID := g.nextTransitionID + 1, nextHistoryId := g.nextHistoryId
      prevTransition := some t.tid }
  if optSameRef c.top toA then
    { res := .ok t, g := g1
      c := if op = .pop then { c with topIndex := c.topIndex - 1 } else c
      evs := [] }
  else
    let susEvs : List Ev := match c.top with | some a => [.suspendingE a] | none => []
    let susFail : Bool := match c.top with | some a => h.suspendingFails a | none => false
    if susFail then { res := .error .handlerFailure, g := g1, c := c, evs := susEvs }
    else
      let resuming : Bool := match toA with | some a => c.containsT (.inst a) | none => false
      let sigEvs : List Ev :=
        match toA with
        | some a => if resuming then [.resumingE a] else [.startingE a]
        | none => []
      let sigFail : Bool :=
        match toA with
        | some a => if resuming then h.resumingFails a else h.startingFails a
        | none => false
      if sigFail then
        { res := .error .handlerFailure, g := g1, c := c, evs := susEvs ++ sigEvs }
      else
        let commit : Globals × StackCore × List Ev :=
          if op = .pop then (g1, { c with topIndex := c.topIndex - 1 }, [])
          else
            let c0 := if op = .replace then { c with topIndex := c.topIndex - 1 } else c
            if c0.topIndex + 1 < (c0.stack.length : Int) ∧
                optSameRef (getAct c0.stack (c0.topIndex + 1)) toA then
              (g1, { c0 with topIndex := c0.topIndex + 1 }, [])
            else
              let keep := (c0.topIndex + 1).toNat
              let devs := deactivationEvents c0.active (c0.stack.drop keep)
              let newStack := c0.stack.take keep ++ [toA.getD junkActivity]
              let newIds := (resizeTo c0.historyIds newStack.length).set
                (newStack.length - 1) (historyIdString g1.nextHistoryId)
              ({ g1 with nextHistoryId := g1.nextHistoryId + 1 },
               { stack := newStack, topIndex := (newStack.length : Int) - 1
                 historyIds := newIds },
               devs)
        let endEvs : List Ev :=
          (match toA with
           | some a => (if resuming then [] else [Ev.startedE a]) ++ [Ev.resumedE a]
           | none => []) ++
          (match c.top with | some a => [Ev.suspendedE a] | none => [])
        { res := .ok t, g := commit.1, c := commit.2.1
          evs := susEvs ++ sigEvs ++ [Ev.transitionE t.tid] ++ commit.2.2 ++
            [Ev.mutationE, Ev.transitionSyncE t.tid] ++ endEvs }

/-- Result of one public async operation: the value the returned future
settles with, the final global and stack state, the emitted signals and
the list of transition records resolved by `_processTransition` calls of
the operation, in commit order (no-op short-circuit commits included). -/
structure RunResult where
  res : Except TErr (Option Transition)
  g : Globals
  c : StackCore
  evs : List Ev
  ts : List Transition

/-- The chained `result.then(p)` loop of `pushAsync`/`replaceAsync`: run
one `_processTransition` per planned step, each step after the previous
one resolved; a rejected step stops the chain and rejects the whole
future; on success the future resolves with the last transition. -/
def runTransitions (h : Handlers) : Globals → StackCore →
    List (Activity × Operation) → RunResult
  | g, c, [] => { res := .ok none, g := g, c := c, evs := [], ts := [] }
  | g, c, (a, op) :: rest =>
    let r := processTransition h g c (some a) op
    match r.res with
    | .error e => { res := .error e, g := r.g, c := r.c, evs := r.evs, ts := [] }
    | .ok t =>
      let rr := runTransitions h r.g r.c rest
      { res := match rr.res with | .ok none => .ok (some t) | other => other
        g := rr.g, c := rr.c, evs := r.evs ++ rr.evs, ts := t :: rr.ts }

/-- Embedding of `popAsync()` / `popAsync(activity)`: reset the transition chain, fail
with `NoActivityToSuspend` on an empty stack, resolve with `undefined`
when the guard activity is not the foreground, otherwise pop. -/
def popAsync (h : Handlers) (g : Globals) (c : StackCore)
    (activity : Option Activity) : RunResult :=
  let g := { g with prevTransition := none }
  if c.topIndex < 0 then
    { res := .error .noActivityToSuspend, g := g, c := c, evs := [], ts := [] }
  else if activity.isSome && !optSameRef c.top activity then
    { res := .ok none, g := g, c := c, evs := [], ts := [] }
  else
    let r := processTransition h g c (getAct c.stack (c.topIndex - 1)) .pop
    { res := r.res.map some, g := r.g, c := r.c, evs := r.evs
      ts := match r.res with | .ok t => [t] | .error _ => [] }

/-- Result of `upAsync` and of the internal helpers built on it. -/
structure UpResult where
  res : Except TErr Unit
  found : Option Activity
  g : Globals
  c : StackCore
  evs : List Ev
  ts : List Transition

/-- Whether the current foreground matches an `upAsync` target, by
reference identity or by `instanceof`. -/
def Target.matchesTop (c : StackCore) : Target → Bool
  | .inst a => optSameRef c.top (some a)
  | .cls cid => match c.top with | some t => t.isInstanceOf cid | none => false

/-- The `recurse` loop of `upAsync`: stop when the foreground matches,
pop one and recurse while the iteration bound is not exhausted and the
target is still contained, otherwise bail out with no result.  `fuel` is
`1000 - count`. -/
def upRecurse (h : Handlers) (tgt : Target) :
    Nat → Globals → StackCore → UpResult
  | 0, g, c =>
    if tgt.matchesTop c then
      { res := .ok (), found := c.top, g := g, c := c, evs := [], ts := [] }
    else
      { res := .ok (), found := none, g := g, c := c, evs := [], ts := [] }
  | f + 1, g, c =>
    if tgt.matchesTop c then
      { res := .ok (), found := c.top, g := g, c := c, evs := [], ts := [] }
    else if c.containsT tgt then
      let r := processTransition h g c (getAct c.stack (c.topIndex - 1)) .pop
      match r.res with
      | .error e =>
        { res := .error e, found := none, g := r.g, c := r.c, evs := r.evs, ts := [] }
      | .ok t =>
        let u := upRecurse h tgt f r.g r.c
        { res := u.res, found := u.found, g := u.g, c := u.c
          evs := r.evs ++ u.evs, ts := t :: u.ts }
    else
      { res := .ok (), found := none, g := g, c := c, evs := [], ts := [] }

/-- Embedding of `upAsync(activityOrClass)`: reset the transition chain, then run the
bounded pop loop. -/
def upAsync (h : Handlers) (g : Globals) (c : StackCore) (tgt : Target) : UpResult :=
  upRecurse h tgt 1000 { g with prevTransition := none } c

/-- The cursor walk of `_popTransient`: first non-transient activity at
or below index `n - 1`. -/
def walkNonTransient (stack : List Activity) : Nat → Option Activity
  | 0 => none
  | n + 1 =>
    match stack.get? n with
    | some a => if a.isTransient then walkNonTransient stack n else some a
    | none => none

/-- Result of the pre-step helpers (`_popTransient`, `_upToHubOrRoot`). -/
structure PreResult where
  res : Except TErr Unit
  g : Globals
  c : StackCore
  evs : List Ev
  ts : List Transition

/-- Embedding of `_popTransient()`: when the foreground is transient, walk the cursor
down past the consecutive transient entries and `upAsync` to the first
non-transient activity found, if any. -/
def popTransient (h : Handlers) (g : Globals) (c : StackCore) : PreResult :=
  match c.top with
  | some t =>
    if t.isTransient then
      match walkNonTransient c.stack (min (c.topIndex + 1).toNat c.stack.length) with
      | some a =>
        let u := upAsync h g c (.inst a)
        { res := u.res, g := u.g, c := u.c, evs := u.evs, ts := u.ts }
      | none => { res := .ok (), g := g, c := c, evs := [], ts := [] }
    else { res := .ok (), g := g, c := c, evs := [], ts := [] }
  | none => { res := .ok (), g := g, c := c, evs := [], ts := [] }

/-- Embedding of `_upToHubOrRoot(activity)`: the root/hub decision is taken against
the state seen when the helper runs (the transient pops it enqueues have
not performed their mutations yet); the queued transient pops then run,
followed by the root or hub `upAsync` walk, if any (the trailing
`Async.sleep(2)` scheduling yield has no observable state effect). -/
def upToHubOrRoot (h : Handlers) (g : Globals) (c : StackCore) (a : Activity) :
    PreResult :=
  let wantRoot := a.isRootActivity && c.containsT (.inst a)
  let hubTarget : Option Activity :=
    match a with
    | .base _ => none
    | .instParent _ par => if par.isHubActivity then some par else none
    | .clsParent _ cid _ =>
      match c.getParent cid none with
      | some par => if par.isHubActivity then some par else none
      | none => none
  let p := popTransient h g c
  match p.res with
  | .error e => { p with res := .error e }
  | .ok _ =>
    if wantRoot then
      let u := upAsync h p.g p.c (.inst a)
      { res := u.res, g := u.g, c := u.c, evs := p.evs ++ u.evs, ts := p.ts ++ u.ts }
    else
      match hubTarget with
      | some par =>
        let u := upAsync h p.g p.c (.inst par)
        { res := u.res, g := u.g, c := u.c, evs := p.evs ++ u.evs, ts := p.ts ++ u.ts }
      | none => p

/-- Embedding of `pushAsync(activity)`: pre-step on the push queue, then on the
transition queue reset the chain, compute `_findParents` on the settled
state and run one `Push` transition per ancestor in order. -/
def pushAsync (h : Handlers) (g : Globals) (c : StackCore) (a : Activity) : RunResult :=
  let pre := upToHubOrRoot h g c a
  match pre.res with
  | .error e => { res := .error e, g := pre.g, c := pre.c, evs := pre.evs, ts := pre.ts }
  | .ok _ =>
    let g1 := { pre.g with prevTransition := none }
    let plan := (findParents pre.c a false).map fun x => (x, Operation.push)
    let r := runTransitions h g1 pre.c plan
    { res := r.res, g := r.g, c := r.c, evs := pre.evs ++ r.evs, ts := pre.ts ++ r.ts }

/-- Embedding of `replaceAsync(activity)`: pre-step, then either a single `Pop` when
the activity already sits directly beneath the foreground, or the
ancestor chain with the first step a `Replace` (`Push` when the stack is
empty) and every further step a `Push`. -/
def replaceAsync (h : Handlers) (g : Globals) (c : StackCore) (a : Activity) : RunResult :=
  let pre := upToHubOrRoot h g c a
  match pre.res with
  | .error e => { res := .error e, g := pre.g, c := pre.c, evs := pre.evs, ts := pre.ts }
  | .ok _ =>
    let g1 := { pre.g with prevTransition := none }
    let c1 := pre.c
    let lonely := c1.topIndex < 0
    if !lonely && optSameRef (getAct c1.stack (c1.topIndex - 1)) (some a) then
      let r := processTransition h g1 c1 (some a) .pop
      { res := r.res.map some, g := r.g, c := r.c
        evs := pre.evs ++ r.evs
        ts := pre.ts ++ (match r.res with | .ok t => [t] | .error _ => []) }
    else
      let plan : List (Activity × Operation) :=
        match findParents c1 a true with
        | [] => []
        | x :: rest =>
          (x, if lonely then Operation.push else Operation.replace) ::
            rest.map fun y => (y, Operation.push)
      let r := runTransitions h g1 c1 plan
      { res := r.res, g := r.g, c := r.c, evs := pre.evs ++ r.evs, ts := pre.ts ++ r.ts }

/-- JavaScript `Array.prototype.lastIndexOf`: last index holding the
value, `-1` when absent. -/
def lastIndexOf (l : List String) (x : String) : Int :=
  match ((l.enum.filter fun p => p.2 == x).map fun p => p.1).getLast? with
  | some k => (k : Int)
  | none => -1

/-- The `{title, historyId, activity, path}` snapshot of
`getHistoryAfter` (`path` comes from the external `activation.getPath()`
and is best-effort, so it is not modeled). -/
structure HistoryEntry where
  title : String
  activity : Option Activity
  historyId : Option String
deriving DecidableEq

/-- The `while (++idx <= top && ...isBackgroundActivity)` loop of
`getHistoryAfter`: advance past consecutive background entries. -/
def skipBg (stack : List Activity) (top : Int) : Nat → Int → Int
  | 0, idx => idx + 1
  | f + 1, idx =>
    let j := idx + 1
    if decide (j ≤ top) &&
        (match getAct stack j with
         | some a => a.isBackgroundActivity
         | none => false) then
      skipBg stack top f j
    else j

/-- Embedding of `getHistoryAfter(historyId)`: locate the id (skipping the not-found
check for a falsy id), advance past background activities, and snapshot
the next entry at or below `topIndex`, if any. -/
def getHistoryAfter (c : StackCore) (historyId : String) : Option HistoryEntry :=
  let idx := lastIndexOf c.historyIds historyId
  if historyId ≠ "" ∧ idx < 0 then none
  else
    let top := c.topIndex
    let j := skipBg c.stack top (top - idx).toNat idx
    if top < j then none
    else
      let title := (titleFromOpt c.stack (j + 1).toNat).getD c.title
      some
        { title := title
          activity := getAct c.stack j
          historyId := if j < 0 then none else c.historyIds.get? j.toNat }

/-- Whether a list of transition records is correctly chained through
`previous` links, starting from a given chain head. -/
def chainedFrom : List Transition → Option Nat → Bool
  | [], _ => true
  | t :: rest, p => t.prev == p && chainedFrom rest (some t.tid)

/-- Target of one queued transition step: fixed at plan time (push and
replace plans), or `stack[topIndex - 1]` read when the step runs (pop). -/
inductive BlockTarget : Type where
  | fixedT (a : Option Activity)
  | popBelow
deriving DecidableEq

/-- One synchronous continuation of the promise scheduler, as delimited
by the source: a top-level operation body resets the module-level chain
variable and runs its first `_processTransition` in one synchronous
continuation; each later chained step runs in a continuation of its own. -/
structure Block where
  resetFirst : Bool
  target : BlockTarget
  op : Operation
deriving DecidableEq

/-- Joint state of two independent `ActivityStack` instances, which share
the module-level `Globals` (in particular `previousTransition`). -/
structure TwoState where
  g : Globals
  c1 : StackCore
  c2 : StackCore

/-- Run one scheduler block against one stack instance. -/
def runBlock (h : Handlers) (g : Globals) (c : StackCore) (b : Block) : PTResult :=
  let g := if b.resetFirst then { g with prevTransition := none } else g
  let toA := match b.target with
    | .fixedT a => a
    | .popBelow => getAct c.stack (c.topIndex - 1)
  processTransition h g c toA b.op

/-- Interleaved execution of the pending blocks of two stacks under a
schedule (`true` picks the first stack's next block).  Collects the
transition records committed by each stack's operation. -/
def runSched (h : Handlers) :
    TwoState → List Block → List Block → List Bool → TwoState × List Transition × List Transition
  | st, _, _, [] => (st, [], [])
  | st, bs1, bs2, pick :: rest =>
    if pick then
      match bs1 with
      | [] => runSched h st [] bs2 rest
      | b :: bs =>
        let r := runBlock h st.g st.c1 b
        let (st2, l1, l2) := runSched h ⟨r.g, r.c, st.c2⟩ bs bs2 rest
        (st2, (match r.res with | .ok t => [t] | .error _ => []) ++ l1, l2)
    else
      match bs2 with
      | [] => runSched h st bs1 [] rest
      | b :: bs =>
        let r := runBlock h st.g st.c2 b
        let (st2, l1, l2) := runSched h ⟨r.g, st.c1, r.c⟩ bs1 bs rest
        (st2, l1, (match r.res with | .ok t => [t] | .error _ => []) ++ l2)

/-- The scheduler blocks of the transition-queue body of `pushAsync`: the
chain reset and the first ancestor push run in one continuation, every
further ancestor push in its own continuation. -/
def pushBlocks (c : StackCore) (a : Activity) : List Block :=
  match findParents c a false with
  | [] => []
  | x :: rest =>
    { resetFirst := true, target := .fixedT (some x), op := .push } ::
      rest.map fun y => { resetFirst := false, target := .fixedT (some y), op := .push }

/-- The single scheduler block of `popAsync()` on a non-empty stack. -/
def popBlocks : List Block :=
  [{ resetFirst := true, target := .popBelow, op := .pop }]

/-- Whether a future settled successfully. -/
def isOkE {α : Type} : Except TErr α → Bool
  | .ok _ => true
  | .error _ => false

/-- Events other than the `Deactivated` emissions of the truncation loop
(the signals an observer of the six lifecycle signals plus
`Transition`/`TransitionSync` sees, with the mutation marker). -/
def nonDeact : Ev → Bool
  | .deactivatedE _ => false
  | _ => true

theorem deactivationEvents_all_deact (active extras : List Activity) :
    ∀ e ∈ deactivationEvents active extras, nonDeact e = false := by
  intro e he
  simp only [deactivationEvents, List.mem_filterMap] at he
  obtain ⟨a, -, ha⟩ := he
  by_cases h : active.any (fun x => x.sameRef a) <;> simp [h] at ha
  subst ha; simp [nonDeact]

theorem deactivationEvents_filter (active extras : List Activity) :
    (deactivationEvents active extras).filter nonDeact = [] := by
  rw [List.filter_eq_nil_iff]
  intro e he
  simp [deactivationEvents_all_deact active extras e he]

theorem processTransition_okH_res (g : Globals) (c : StackCore)
    (toA : Option Activity) (op : Operation) :
    isOkE (processTransition okHandlers g c toA op).res = true := by
  unfold processTransition
  cases hc : c.top <;> cases ht : toA <;>
    simp only [okHandlers, hc, ht] <;>
    split <;> simp [isOkE]

theorem processTransition_ok_or_core (h : Handlers) (g : Globals) (c : StackCore)
    (toA : Option Activity) (op : Operation) :
    isOkE (processTransition h g c toA op).res = true ∨
      (processTransition h g c toA op).c = c := by
  unfold processTransition
  dsimp only
  repeat' split
  all_goals first | (left; rfl) | (right; rfl)

theorem processTransition_error_core (h : Handlers) (g : Globals) (c : StackCore)
    (toA : Option Activity) (op : Operation) (e : TErr)
    (herr : (processTransition h g c toA op).res = .error e) :
    (processTransition h g c toA op).c = c := by
  rcases processTransition_ok_or_core h g c toA op with hok | hc
  · rw [herr] at hok; simp [isOkE] at hok
  · exact hc

theorem processTransition_ok_fields (h : Handlers) (g : Globals) (c : StackCore)
    (toA : Option Activity) (op : Operation) (t : Transition)
    (hok : (processTransition h g c toA op).res = .ok t) :
    t = ⟨g.nextTransitionID, op, c.top, toA, g.prevTransition⟩ := by
  unfold processTransition at hok
  dsimp only at hok
  repeat' split at hok
  all_goals first | (cases hok; rfl) | simp at hok

theorem processTransition_g_prev (h : Handlers) (g : Globals) (c : StackCore)
    (toA : Option Activity) (op : Operation) :
    (processTransition h g c toA op).g.prevTransition = some g.nextTransitionID := by
  unfold processTransition
  dsimp only
  repeat' split
  all_goals rfl

theorem processTransition_veto (h : Handlers) (g : Globals) (c : StackCore)
    (toA : Option Activity) (op : Operation)
    (hsc : optSameRef c.top toA = false) :
    (∀ a, c.top = some a → h.suspendingFails a = true →
      (processTransition h g c toA op).res = .error .handlerFailure) ∧
    (∀ a, toA = some a →
      (match c.top with | some x => h.suspendingFails x | none => false) = false →
      (if c.containsT (.inst a) then h.resumingFails a = true else h.startingFails a = true) →
      (processTransition h g c toA op).res = .error .handlerFailure) := by
  constructor
  · intro a ha hf
    rw [ha] at hsc
    simp [processTransition, hsc, ha, hf]
  · intro a ha hs hf
    rw [ha] at hsc
    by_cases hcc : c.containsT (.inst a) = true
    · rw [if_pos hcc] at hf
      simp [processTransition, hsc, ha, hs, hcc, hf]
    · rw [if_neg hcc] at hf
      simp only [Bool.not_eq_true] at hcc
      simp [processTransition, hsc, ha, hs, hcc, hf]

theorem runTransitions_error_keeps_prefix (h : Handlers) :
    ∀ (steps : List (Activity × Operation)) (g : Globals) (c : StackCore) (e : TErr),
    (runTransitions h g c steps).res = .error e →
    (runTransitions h g c steps).c =
      (runTransitions h g c (steps.take (runTransitions h g c steps).ts.length)).c
  | [], g, c, e => by intro hx; simp [runTransitions] at hx
  | (a, op) :: rest, g, c, e => by
    intro hx
    simp only [runTransitions] at hx ⊢
    rcases hr : (processTransition h g c (some a) op).res with e2 | t
    · simp only [hr] at hx ⊢
      simpa using processTransition_error_core h g c (some a) op e2 hr
    · simp only [hr] at hx ⊢
      rcases hres : (runTransitions h (processTransition h g c (some a) op).g
          (processTransition h g c (some a) op).c rest).res with e3 | t3
      · have := runTransitions_error_keeps_prefix h rest
          (processTransition h g c (some a) op).g
          (processTransition h g c (some a) op).c e3 hres
        simpa only [hres, List.length_cons, List.take_succ_cons, runTransitions, hr]
          using this
      · rcases t3 with _ | t4 <;> simp [hres] at hx

theorem Activity.sameRef_refl (a : Activity) : a.sameRef a = true := by
  simp [Activity.sameRef]

theorem processTransition_noop (h : Handlers) (g : Globals) (c : StackCore)
    (toA : Option Activity) (op : Operation) (hsc : optSameRef c.top toA = true) :
    processTransition h g c toA op =
      { res := .ok ⟨g.nextTransitionID, op, c.top, toA, g.prevTransition⟩
        g := ⟨g.nextTransitionID + 1, g.nextHistoryId, some g.nextTransitionID⟩
        c := if op = .pop then { c with topIndex := c.topIndex - 1 } else c
        evs := [] } := by
  simp [processTransition, hsc]

theorem upRecurse_okH_res (tgt : Target) :
    ∀ (fuel : Nat) (g : Globals) (c : StackCore),
      (upRecurse okHandlers tgt fuel g c).res = .ok () := by
  intro fuel
  induction fuel with
  | zero =>
    intro g c
    unfold upRecurse
    split <;> rfl
  | succ f ih =>
    intro g c
    unfold upRecurse
    split
    · rfl
    · split
      · rcases hr : (processTransition okHandlers g c (getAct c.stack (c.topIndex - 1)) .pop).res
          with e | t
        · have := processTransition_okH_res g c (getAct c.stack (c.topIndex - 1)) .pop
          rw [hr] at this
          simp [isOkE] at this
        · simp only [hr]
          exact ih _ _
      · rfl

theorem upAsync_okH_res (g : Globals) (c : StackCore) (tgt : Target) :
    (upAsync okHandlers g c tgt).res = .ok () :=
  upRecurse_okH_res tgt 1000 _ c

theorem popTransient_okH_res (g : Globals) (c : StackCore) :
    (popTransient okHandlers g c).res = .ok () := by
  unfold popTransient
  rcases htop : c.top with _ | t
  · simp [htop]
  · simp only [htop]
    split
    · split <;> simp [upAsync_okH_res]
    · rfl

theorem upToHubOrRoot_okH_res (g : Globals) (c : StackCore) (a : Activity) :
    (upToHubOrRoot okHandlers g c a).res = .ok () := by
  unfold upToHubOrRoot
  rcases hp : (popTransient okHandlers g c).res with e | u
  · have := popTransient_okH_res g c
    rw [hp] at this
    cases this
  · cases u
    simp only [hp]
    split
    · simp [upAsync_okH_res]
    · split <;> simp [upAsync_okH_res, hp]

/-- C2: a rejecting `Suspending` / `Resuming` / `Starting` handler makes
the transition step's future reject, and the rejecting step leaves
`stack`, `topIndex` and `historyIds` untouched; steps of the same
multi-step operation that committed before the failing step stay
committed (the final state is the state after the committed prefix). -/
theorem C2_veto_atomicity (h : Handlers) (g : Globals) (c : StackCore)
    (toA : Option Activity) (op : Operation)
    (steps : List (Activity × Operation)) (e : TErr) :
    (optSameRef c.top toA = false →
      (∀ a, c.top = some a → h.suspendingFails a = true →
        (processTransition h g c toA op).res = .error .handlerFailure) ∧
      (∀ a, toA = some a →
        (match c.top with | some x => h.suspendingFails x | none => false) = false →
        (if c.containsT (.inst a) then h.resumingFails a = true
          else h.startingFails a = true) →
        (processTransition h g c toA op).res = .error .handlerFailure)) ∧
    ((processTransition h g c toA op).res = .error e →
      (processTransition h g c toA op).c = c) ∧
    ((runTransitions h g c steps).res = .error e →
      (runTransitions h g c steps).c =
        (runTransitions h g c (steps.take (runTransitions h g c steps).ts.length)).c) :=
  ⟨fun hsc => processTransition_veto h g c toA op hsc,
   fun herr => processTransition_error_core h g c toA op e herr,
   fun herr => runTransitions_error_keeps_prefix h steps g c e herr⟩

def wAct5 : Activity := .base ⟨5, false, false, false, false, none, []⟩
def wAct6 : Activity := .base ⟨6, false, false, false, false, none, []⟩

/-- Handlers whose `Suspending` handler rejects exactly on activity 5. -/
def wBadHandlers : Handlers :=
  { suspendingFails := fun x => x.idn == 5
    resumingFails := fun _ => false
    startingFails := fun _ => false }

def wCore2 : StackCore := ⟨[wAct5], 0, ["_A0"]⟩

theorem C2_veto_atomicity_witness :
    (processTransition wBadHandlers ⟨0, 0, none⟩ wCore2 (some wAct6) .push).res =
      .error .handlerFailure ∧
    (processTransition wBadHandlers ⟨0, 0, none⟩ wCore2 (some wAct6) .push).c = wCore2 := by
  have hmain := C2_veto_atomicity wBadHandlers ⟨0, 0, none⟩ wCore2 (some wAct6)
    .push [] .handlerFailure
  have herr := (hmain.1 (by decide)).1 wAct5 (by decide) (by decide)
  exact ⟨herr, hmain.2.1 herr⟩

/-- C7 (amended): a `_processTransition` whose target is the current
foreground resolves immediately with the fresh record, emits nothing,
and only a `Pop` decrements `topIndex`; and `pushAsync(a)` with `a`
already the foreground resolves to an `op = Push` transition leaving the
stack unchanged, provided the root/hub/transient pre-step is inert and
`a`'s declared parent chain is already satisfied on the stack. -/
theorem C7_noop_shortcircuit :
    (∀ (h : Handlers) (g : Globals) (c : StackCore) (toA : Option Activity) (op : Operation),
      optSameRef c.top toA = true →
        (processTransition h g c toA op).res =
          .ok ⟨g.nextTransitionID, op, c.top, toA, g.prevTransition⟩ ∧
        (processTransition h g c toA op).evs = [] ∧
        (processTransition h g c toA op).c.stack = c.stack ∧
        (processTransition h g c toA op).c.historyIds = c.historyIds ∧
        (processTransition h g c toA op).c.topIndex =
          (if op = .pop then c.topIndex - 1 else c.topIndex)) ∧
    (∀ (g : Globals) (c : StackCore) (a : Activity),
      c.top = some a →
      (upToHubOrRoot okHandlers g c a).c = c →
      (upToHubOrRoot okHandlers g c a).ts = [] →
      (upToHubOrRoot okHandlers g c a).evs = [] →
      findParents c a false = [a] →
        (∃ t, (pushAsync okHandlers g c a).res = .ok (some t) ∧ t.op = .push) ∧
        (pushAsync okHandlers g c a).c = c ∧
        (pushAsync okHandlers g c a).evs = [] ∧
        (pushAsync okHandlers g c a).ts.map (fun t => t.op) = [.push]) := by
  constructor
  · intro h g c toA op hsc
    rw [processTransition_noop h g c toA op hsc]
    by_cases hop : op = Operation.pop <;> simp [hop]
  · intro g c a htop hpc hpts hpevs hfp
    have hres := upToHubOrRoot_okH_res g c a
    have hsc : optSameRef c.top (some a) = true := by
      rw [htop]; exact Activity.sameRef_refl a
    unfold pushAsync
    dsimp only
    rw [hres]
    dsimp only
    rw [hpc, hfp]
    simp only [List.map_cons, List.map_nil, runTransitions]
    rw [processTransition_noop okHandlers _ c (some a) .push hsc]
    simp [runTransitions, hpevs, hpts]

def cxP7 : Activity := .base ⟨10, false, false, false, false, none, []⟩
def cxA7 : Activity := .instParent ⟨11, false, false, false, false, none, []⟩ cxP7
def cxCore7 : StackCore := ⟨[cxA7], 0, ["_A0"]⟩

/-- C7 counterexample: `cxA7` is the foreground of `[cxA7]` but its
declared parent is absent from the stack, so `pushAsync(cxA7)` mutates
the stack to `[cxA7, cxP7, cxA7]` instead of leaving it unchanged. -/
theorem C7_noop_counterexample :
    cxCore7.top = some cxA7 ∧
    (pushAsync okHandlers ⟨0, 0, none⟩ cxCore7 cxA7).c.stack.map Activity.idn =
      [11, 10, 11] ∧
    ¬((pushAsync okHandlers ⟨0, 0, none⟩ cxCore7 cxA7).c.stack = cxCore7.stack) := by
  decide

theorem C7_noop_shortcircuit_witness :
    (processTransition okHandlers ⟨0, 0, none⟩ wCore2 (some wAct5) .pop).evs = [] ∧
    (processTransition okHandlers ⟨0, 0, none⟩ wCore2 (some wAct5) .pop).c.topIndex = -1 := by
  have h := (C7_noop_shortcircuit.1) okHandlers ⟨0, 0, none⟩ wCore2 (some wAct5) .pop
    (by decide)
  refine ⟨h.2.1, ?_⟩
  rw [h.2.2.2.2]
  decide

/-- C8: `popAsync` on an empty stack rejects with `NoActivityToSuspend`
(with or without a guard activity) leaving the state untouched, and on a
non-empty stack a guard activity that is not the foreground resolves to
`undefined` with no mutation and no signal. -/
theorem C8_pop_empty_guard (h : Handlers) (g : Globals) (c : StackCore)
    (activity : Option Activity) :
    (c.topIndex < 0 →
      (popAsync h g c activity).res = .error .noActivityToSuspend ∧
      (popAsync h g c activity).c = c ∧
      (popAsync h g c activity).evs = [] ∧
      (popAsync h g c activity).ts = []) ∧
    (∀ a, activity = some a → ¬(c.topIndex < 0) → optSameRef c.top (some a) = false →
      (popAsync h g c activity).res = .ok none ∧
      (popAsync h g c activity).c = c ∧
      (popAsync h g c activity).evs = [] ∧
      (popAsync h g c activity).ts = []) := by
  constructor
  · intro hlt
    simp [popAsync, hlt]
  · intro a ha hge hne
    subst ha
    simp [popAsync, hge, hne]

theorem C8_pop_empty_guard_witness :
    (popAsync okHandlers ⟨0, 0, none⟩ ⟨[], -1, []⟩ none).res =
      .error .noActivityToSuspend ∧
    (popAsync okHandlers ⟨0, 0, none⟩ wCore2 (some wAct6)).res = .ok none ∧
    (popAsync okHandlers ⟨0, 0, none⟩ wCore2 (some wAct6)).c = wCore2 := by
  refine ⟨((C8_pop_empty_guard okHandlers ⟨0, 0, none⟩ ⟨[], -1, []⟩ none).1 (by decide)).1, ?_, ?_⟩
  · exact ((C8_pop_empty_guard okHandlers ⟨0, 0, none⟩ wCore2 (some wAct6)).2
      wAct6 rfl (by decide) (by decide)).1
  · exact ((C8_pop_empty_guard okHandlers ⟨0, 0, none⟩ wCore2 (some wAct6)).2
      wAct6 rfl (by decide) (by decide)).2.1

theorem top_mem_active (c : StackCore) (x : Activity) (htop : c.top = some x) :
    x ∈ c.active := by
  unfold StackCore.top getAct at htop
  split at htop
  · cases htop
  · rename_i hnn
    have hlt : c.topIndex.toNat < (c.topIndex + 1).toNat := by omega
    have hx : (c.stack.take (c.topIndex + 1).toNat).get? c.topIndex.toNat = some x := by
      rw [List.get?_take hlt]; exact htop
    exact List.get?_mem hx

theorem not_contains_top_sameRef (c : StackCore) (a old : Activity)
    (htop : c.top = some old) (hnc : c.containsT (.inst a) = false) :
    optSameRef c.top (some a) = false := by
  rw [htop]
  have hmem := top_mem_active c old htop
  unfold StackCore.containsT at hnc
  rw [List.any_eq_false] at hnc
  have := hnc old hmem
  simpa [optSameRef] using this

/-- C1: on a push of a net-new activity into a non-empty stack, the
observable emissions of the transition (every `Deactivated` of the
forward-history truncation filtered out, as the claim subscribes only to
the six lifecycle signals plus `Transition`/`TransitionSync`) come in
exactly the order `Suspending(old)`, `Starting(new)`, `Transition`,
structural mutation, `TransitionSync`, `Started(new)`, `Resumed(new)`,
`Suspended(old)`; when the target is already in the active region,
`Resuming` replaces `Starting` and `Started` is skipped. -/
theorem C1_signal_order (g : Globals) (c : StackCore) (a old : Activity)
    (htop : c.top = some old) :
    (c.containsT (.inst a) = false →
      (processTransition okHandlers g c (some a) .push).evs.filter nonDeact =
        [.suspendingE old, .startingE a, .transitionE g.nextTransitionID, .mutationE,
         .transitionSyncE g.nextTransitionID, .startedE a, .resumedE a,
         .suspendedE old]) ∧
    (c.containsT (.inst a) = true → optSameRef c.top (some a) = false →
      (processTransition okHandlers g c (some a) .push).evs.filter nonDeact =
        [.suspendingE old, .resumingE a, .transitionE g.nextTransitionID, .mutationE,
         .transitionSyncE g.nextTransitionID, .resumedE a, .suspendedE old]) := by
  constructor
  · intro hnc
    have hsc := not_contains_top_sameRef c a old htop hnc
    rw [htop] at hsc
    simp only [processTransition, hsc, htop, hnc, okHandlers, Bool.false_eq_true,
      if_false, reduceCtorEq, reduceIte]
    split
    all_goals simp [nonDeact, List.filter_append, deactivationEvents_filter,
      deactivationEvents_all_deact]
  · intro hcc hsc
    rw [htop] at hsc
    simp only [processTransition, hsc, htop, hcc, okHandlers, Bool.false_eq_true,
      if_false, reduceCtorEq, reduceIte]
    split
    all_goals simp [nonDeact, List.filter_append, deactivationEvents_filter,
      deactivationEvents_all_deact]

def w1Old : Activity := .base ⟨7, false, false, false, false, none, []⟩
def w1New : Activity := .base ⟨8, false, false, false, false, none, []⟩
def w1Core : StackCore := ⟨[w1Old], 0, ["_A0"]⟩

theorem C1_signal_order_witness :
    (processTransition okHandlers ⟨0, 0, none⟩ w1Core (some w1New) .push).evs.filter
        nonDeact =
      [.suspendingE w1Old, .startingE w1New, .transitionE 0, .mutationE,
       .transitionSyncE 0, .startedE w1New, .resumedE w1New, .suspendedE w1Old] :=
  (C1_signal_order ⟨0, 0, none⟩ w1Core w1New w1Old (by decide)).1 (by decide)

theorem upRecurse_not_contained (tgt : Target) (fuel : Nat) (g : Globals) (c : StackCore)
    (hm : tgt.matchesTop c = false) (hc : c.containsT tgt = false) :
    upRecurse okHandlers tgt fuel g c =
      { res := .ok (), found := none, g := g, c := c, evs := [], ts := [] } := by
  cases fuel with
  | zero => unfold upRecurse; simp [hm]
  | succ f => unfold upRecurse; simp [hm, hc]

theorem upAsync_not_contained (g : Globals) (c : StackCore) (tgt : Target)
    (hm : tgt.matchesTop c = false) (hc : c.containsT tgt = false) :
    upAsync okHandlers g c tgt =
      { res := .ok (), found := none, g := { g with prevTransition := none }, c := c
        evs := [], ts := [] } := by
  unfold upAsync
  exact upRecurse_not_contained tgt 1000 _ c hm hc

theorem resizeTo_length (l : List String) (n : Nat) : (resizeTo l n).length = n := by
  unfold resizeTo
  split
  · simp [List.length_take]; omega
  · simp; omega

theorem match_top_false (o : Option Activity) :
    (match o with | some _ => false | none => false) = false := by
  cases o <;> rfl

theorem processTransition_push_new (g : Globals) (c : StackCore) (x : Activity)
    (hsc : optSameRef c.top (some x) = false)
    (hnc : c.containsT (.inst x) = false)
    (hlen : (c.stack.length : Int) = c.topIndex + 1) :
    processTransition okHandlers g c (some x) .push =
      { res := .ok ⟨g.nextTransitionID, .push, c.top, some x, g.prevTransition⟩
        g := ⟨g.nextTransitionID + 1, g.nextHistoryId + 1, some g.nextTransitionID⟩
        c := { stack := c.stack ++ [x], topIndex := (c.stack.length : Int)
               historyIds := (resizeTo c.historyIds (c.stack.length + 1)).set
                 c.stack.length (historyIdString g.nextHistoryId) }
        evs := (match c.top with | some o => [.suspendingE o] | none => []) ++
          ([.startingE x, .transitionE g.nextTransitionID, .mutationE,
            .transitionSyncE g.nextTransitionID, .startedE x, .resumedE x] ++
           (match c.top with | some o => [.suspendedE o] | none => [])) } := by
  have hk : (c.topIndex + 1).toNat = c.stack.length := by omega
  have hlt : ¬(c.topIndex + 1 < (c.stack.length : Int)) := by omega
  simp only [processTransition, hsc, hnc, okHandlers, Bool.false_eq_true, if_false,
    reduceCtorEq, reduceIte, hk, hlt, false_and, List.take_length, List.drop_length,
    match_top_false]
  simp [deactivationEvents, List.length_append, hk]

theorem processTransition_pop_resume (g : Globals) (c : StackCore) (x : Activity)
    (hsc : optSameRef c.top (some x) = false)
    (hcc : c.containsT (.inst x) = true) :
    processTransition okHandlers g c (some x) .pop =
      { res := .ok ⟨g.nextTransitionID, .pop, c.top, some x, g.prevTransition⟩
        g := ⟨g.nextTransitionID + 1, g.nextHistoryId, some g.nextTransitionID⟩
        c := { c with topIndex := c.topIndex - 1 }
        evs := (match c.top with | some o => [.suspendingE o] | none => []) ++
          ([.resumingE x, .transitionE g.nextTransitionID, .mutationE,
            .transitionSyncE g.nextTransitionID, .resumedE x] ++
           (match c.top with | some o => [.suspendedE o] | none => [])) } := by
  simp only [processTransition, hsc, hcc, okHandlers, Bool.false_eq_true, if_false,
    reduceCtorEq, reduceIte, match_top_false]
  simp [List.append_assoc]

theorem pushChain3_body (gn hn : Nat) (da db dc : AData)
    (hab : da.idn ≠ db.idn) (hac : da.idn ≠ dc.idn) (hbc : db.idn ≠ dc.idn) :
    (runTransitions okHandlers ⟨gn, hn, none⟩ ⟨[], -1, []⟩
        [(.base da, .push), (.instParent db (.base da), .push),
         (.instParent dc (.instParent db (.base da)), .push)]).ts.map
        (fun t => t.op) = [.push, .push, .push] ∧
    (runTransitions okHandlers ⟨gn, hn, none⟩ ⟨[], -1, []⟩
        [(.base da, .push), (.instParent db (.base da), .push),
         (.instParent dc (.instParent db (.base da)), .push)]).ts.map
        (fun t => t.toAct) =
      [some (.base da), some (.instParent db (.base da)),
       some (.instParent dc (.instParent db (.base da)))] ∧
    chainedFrom (runTransitions okHandlers ⟨gn, hn, none⟩ ⟨[], -1, []⟩
        [(.base da, .push), (.instParent db (.base da), .push),
         (.instParent dc (.instParent db (.base da)), .push)]).ts none = true ∧
    (runTransitions okHandlers ⟨gn, hn, none⟩ ⟨[], -1, []⟩
        [(.base da, .push), (.instParent db (.base da), .push),
         (.instParent dc (.instParent db (.base da)), .push)]).c.stack =
      [.base da, .instParent db (.base da),
       .instParent dc (.instParent db (.base da))] ∧
    (runTransitions okHandlers ⟨gn, hn, none⟩ ⟨[], -1, []⟩
        [(.base da, .push), (.instParent db (.base da), .push),
         (.instParent dc (.instParent db (.base da)), .push)]).c.topIndex = 2 ∧
    (runTransitions okHandlers ⟨gn, hn, none⟩ ⟨[], -1, []⟩
        [(.base da, .push), (.instParent db (.base da), .push),
         (.instParent dc (.instParent db (.base da)), .push)]).c.historyIds.length = 3 := by
  have s1 : processTransition okHandlers ⟨gn, hn, none⟩ ⟨[], -1, []⟩
      (some (.base da)) .push =
      { res := .ok ⟨gn, .push, none, some (.base da), none⟩
        g := ⟨gn + 1, hn + 1, some gn⟩
        c := ⟨[.base da], 0, [historyIdString hn]⟩
        evs := [.startingE (.base da), .transitionE gn, .mutationE,
          .transitionSyncE gn, .startedE (.base da), .resumedE (.base da)] } := by
    rw [processTransition_push_new ⟨gn, hn, none⟩ ⟨[], -1, []⟩ (.base da)
      (by simp [StackCore.top, getAct, optSameRef])
      (by simp [StackCore.containsT, StackCore.active]) (by decide)]
    simp [resizeTo, StackCore.top, getAct]
  have s2 : processTransition okHandlers ⟨gn + 1, hn + 1, some gn⟩
      ⟨[.base da], 0, [historyIdString hn]⟩
      (some (.instParent db (.base da))) .push =
      { res := .ok ⟨gn + 1, .push, some (.base da),
          some (.instParent db (.base da)), some gn⟩
        g := ⟨gn + 2, hn + 2, some (gn + 1)⟩
        c := ⟨[.base da, .instParent db (.base da)], 1,
          [historyIdString hn, historyIdString (hn + 1)]⟩
        evs := [.suspendingE (.base da), .startingE (.instParent db (.base da)),
          .transitionE (gn + 1), .mutationE, .transitionSyncE (gn + 1),
          .startedE (.instParent db (.base da)),
          .resumedE (.instParent db (.base da)), .suspendedE (.base da)] } := by
    rw [processTransition_push_new _ _ _
      (by simp [StackCore.top, getAct, optSameRef, Activity.sameRef, Activity.idn,
        Activity.data, hab])
      (by simp [StackCore.containsT, StackCore.active, Activity.sameRef, Activity.idn,
        Activity.data, hab])
      (by simp)]
    simp [resizeTo, StackCore.top, getAct]
  have s3 : processTransition okHandlers ⟨gn + 2, hn + 2, some (gn + 1)⟩
      ⟨[.base da, .instParent db (.base da)], 1,
        [historyIdString hn, historyIdString (hn + 1)]⟩
      (some (.instParent dc (.instParent db (.base da)))) .push =
      { res := .ok ⟨gn + 2, .push, some (.instParent db (.base da)),
          some (.instParent dc (.instParent db (.base da))), some (gn + 1)⟩
        g := ⟨gn + 3, hn + 3, some (gn + 2)⟩
        c := ⟨[.base da, .instParent db (.base da),
            .instParent dc (.instParent db (.base da))], 2,
          [historyIdString hn, historyIdString (hn + 1), historyIdString (hn + 2)]⟩
        evs := [.suspendingE (.instParent db (.base da)),
          .startingE (.instParent dc (.instParent db (.base da))),
          .transitionE (gn + 2), .mutationE, .transitionSyncE (gn + 2),
          .startedE (.instParent dc (.instParent db (.base da))),
          .resumedE (.instParent dc (.instParent db (.base da))),
          .suspendedE (.instParent db (.base da))] } := by
    rw [processTransition_push_new _ _ _
      (by simp [StackCore.top, getAct, optSameRef, Activity.sameRef, Activity.idn,
        Activity.data, hbc])
      (by simp [StackCore.containsT, StackCore.active, Activity.sameRef, Activity.idn,
        Activity.data, hac, hbc])
      (by simp)]
    simp [resizeTo, StackCore.top, getAct]
  simp only [runTransitions, s1, s2, s3]
  simp [chainedFrom]

/-- C3: pushing an activity `C` whose declared parent chain is `B → A`
(specific instances, none satisfied) onto an empty stack commits exactly
three `Push` transitions in the order `A`, `B`, `C`, each chained
through `previous` on completion of the previous one, ending with stack
`[A, B, C]`, `topIndex = 2` and three history ids. -/
theorem C3_ancestor_expansion (g : Globals) (a b c : Activity) (da db dc : AData)
    (hA : a = .base da) (hB : b = .instParent db a) (hC : c = .instParent dc b)
    (hab : da.idn ≠ db.idn) (hac : da.idn ≠ dc.idn) (hbc : db.idn ≠ dc.idn) :
    (pushAsync okHandlers g ⟨[], -1, []⟩ c).ts.map (fun t => t.op) =
      [.push, .push, .push] ∧
    (pushAsync okHandlers g ⟨[], -1, []⟩ c).ts.map (fun t => t.toAct) =
      [some a, some b, some c] ∧
    chainedFrom (pushAsync okHandlers g ⟨[], -1, []⟩ c).ts none = true ∧
    (pushAsync okHandlers g ⟨[], -1, []⟩ c).c.stack = [a, b, c] ∧
    (pushAsync okHandlers g ⟨[], -1, []⟩ c).c.topIndex = 2 ∧
    (pushAsync okHandlers g ⟨[], -1, []⟩ c).c.historyIds.length = 3 := by
  subst hC; subst hB; subst hA
  have hbody := pushChain3_body g.nextTransitionID g.nextHistoryId da db dc hab hac hbc
  have hpt : popTransient okHandlers g ⟨[], -1, []⟩ =
      { res := .ok (), g := g, c := ⟨[], -1, []⟩, evs := [], ts := [] } := rfl
  have hplan : findParents ⟨[], -1, []⟩
      (.instParent dc (.instParent db (.base da))) false =
      [.base da, .instParent db (.base da),
       .instParent dc (.instParent db (.base da))] := rfl
  have hwr : ((Activity.instParent dc
        (Activity.instParent db (Activity.base da))).isRootActivity &&
      StackCore.containsT ⟨[], -1, []⟩
        (.inst (Activity.instParent dc
          (Activity.instParent db (Activity.base da))))) = false := by
    simp [StackCore.containsT, StackCore.active]
  unfold pushAsync upToHubOrRoot
  rw [hpt]
  dsimp only
  simp only [hwr, Bool.false_eq_true, if_false, reduceIte]
  by_cases hhub : (Activity.instParent db (Activity.base da)).isHubActivity = true
  · simp only [hhub, reduceIte]
    rw [upAsync_not_contained g ⟨[], -1, []⟩
      (.inst (.instParent db (.base da)))
      (by simp [Target.matchesTop, StackCore.top, getAct, optSameRef])
      (by simp [StackCore.containsT, StackCore.active])]
    simp only [hplan]
    simpa using hbody
  · simp only [Bool.not_eq_true] at hhub
    simp only [hhub, Bool.false_eq_true, if_false, reduceIte]
    simp only [hplan]
    simpa using hbody

def w3A : AData := ⟨1, false, false, false, false, none, []⟩
def w3B : AData := ⟨2, false, false, false, false, none, []⟩
def w3C : AData := ⟨3, false, false, false, false, none, []⟩

theorem C3_ancestor_expansion_witness :
    (pushAsync okHandlers ⟨0, 0, none⟩ ⟨[], -1, []⟩
        (.instParent w3C (.instParent w3B (.base w3A)))).c.stack =
      [.base w3A, .instParent w3B (.base w3A),
       .instParent w3C (.instParent w3B (.base w3A))] ∧
    (pushAsync okHandlers ⟨0, 0, none⟩ ⟨[], -1, []⟩
        (.instParent w3C (.instParent w3B (.base w3A)))).c.topIndex = 2 :=
  have h := C3_ancestor_expansion ⟨0, 0, none⟩ _ _ _ w3A w3B w3C rfl rfl rfl
    (by decide) (by decide) (by decide)
  ⟨h.2.2.2.1, h.2.2.2.2.1⟩

theorem matchesTop_top_some (c : StackCore) (tgt : Target)
    (hm : tgt.matchesTop c = true) : ∃ x, c.top = some x := by
  cases tgt with
  | inst a =>
    unfold Target.matchesTop at hm
    rcases htop : c.top with _ | x
    · rw [htop] at hm; simp [optSameRef] at hm
    · exact ⟨x, rfl⟩
  | cls cid =>
    unfold Target.matchesTop at hm
    rcases htop : c.top with _ | x
    · rw [htop] at hm; cases hm
    · exact ⟨x, rfl⟩

theorem matchesTop_contains (c : StackCore) (tgt : Target)
    (hm : tgt.matchesTop c = true) : c.containsT tgt = true := by
  cases tgt with
  | inst a =>
    unfold Target.matchesTop at hm
    rcases htop : c.top with _ | x
    · rw [htop] at hm; simp [optSameRef] at hm
    · rw [htop] at hm
      simp only [optSameRef] at hm
      have hmem := top_mem_active c x htop
      unfold StackCore.containsT
      rw [List.any_eq_true]
      exact ⟨x, hmem, hm⟩
  | cls cid =>
    unfold Target.matchesTop at hm
    rcases htop : c.top with _ | x
    · rw [htop] at hm; cases hm
    · rw [htop] at hm
      have hmem := top_mem_active c x htop
      unfold StackCore.containsT
      rw [List.any_eq_true]
      exact ⟨x, hmem, hm⟩

theorem upRecurse_match (tgt : Target) (fuel : Nat) (g : Globals) (c : StackCore)
    (hm : tgt.matchesTop c = true) :
    upRecurse okHandlers tgt fuel g c =
      { res := .ok (), found := c.top, g := g, c := c, evs := [], ts := [] } := by
  cases fuel <;> unfold upRecurse <;> simp [hm]

theorem upRecurse_zero_nomatch (tgt : Target) (g : Globals) (c : StackCore)
    (hm : tgt.matchesTop c = false) :
    upRecurse okHandlers tgt 0 g c =
      { res := .ok (), found := none, g := g, c := c, evs := [], ts := [] } := by
  unfold upRecurse; simp [hm]

theorem upRecurse_step (tgt : Target) (f : Nat) (g : Globals) (c : StackCore)
    (hm : tgt.matchesTop c = false) (hc : c.containsT tgt = true) (t : Transition)
    (hr : (processTransition okHandlers g c (getAct c.stack (c.topIndex - 1)) .pop).res =
      .ok t) :
    upRecurse okHandlers tgt (f + 1) g c =
      { res := (upRecurse okHandlers tgt f
          (processTransition okHandlers g c (getAct c.stack (c.topIndex - 1)) .pop).g
          (processTransition okHandlers g c (getAct c.stack (c.topIndex - 1)) .pop).c).res
        found := (upRecurse okHandlers tgt f
          (processTransition okHandlers g c (getAct c.stack (c.topIndex - 1)) .pop).g
          (processTransition okHandlers g c (getAct c.stack (c.topIndex - 1)) .pop).c).found
        g := (upRecurse okHandlers tgt f
          (processTransition okHandlers g c (getAct c.stack (c.topIndex - 1)) .pop).g
          (processTransition okHandlers g c (getAct c.stack (c.topIndex - 1)) .pop).c).g
        c := (upRecurse okHandlers tgt f
          (processTransition okHandlers g c (getAct c.stack (c.topIndex - 1)) .pop).g
          (processTransition okHandlers g c (getAct c.stack (c.topIndex - 1)) .pop).c).c
        evs := (processTransition okHandlers g c
            (getAct c.stack (c.topIndex - 1)) .pop).evs ++
          (upRecurse okHandlers tgt f
            (processTransition okHandlers g c (getAct c.stack (c.topIndex - 1)) .pop).g
            (processTransition okHandlers g c (getAct c.stack (c.topIndex - 1)) .pop).c).evs
        ts := t :: (upRecurse okHandlers tgt f
          (processTransition okHandlers g c (getAct c.stack (c.topIndex - 1)) .pop).g
          (processTransition okHandlers g c (getAct c.stack (c.topIndex - 1)) .pop).c).ts } := by
  conv_lhs => unfold upRecurse
  simp [hm, hc, hr]

theorem upRecurse_bail (tgt : Target) (f : Nat) (g : Globals) (c : StackCore)
    (hm : tgt.matchesTop c = false) (hc : c.containsT tgt = false) :
    upRecurse okHandlers tgt (f + 1) g c =
      { res := .ok (), found := none, g := g, c := c, evs := [], ts := [] } := by
  unfold upRecurse; simp [hm, hc]

theorem upRecurse_spec (tgt : Target) :
    ∀ (fuel : Nat) (g : Globals) (c : StackCore),
      (upRecurse okHandlers tgt fuel g c).ts.length ≤ fuel ∧
      (∀ m, (upRecurse okHandlers tgt fuel g c).found = some m →
        (upRecurse okHandlers tgt fuel g c).c.top = some m ∧
        tgt.matchesTop (upRecurse okHandlers tgt fuel g c).c = true) ∧
      (c.containsT tgt = false →
        (upRecurse okHandlers tgt fuel g c).found = none ∧
        (upRecurse okHandlers tgt fuel g c).ts = [] ∧
        (upRecurse okHandlers tgt fuel g c).c = c) ∧
      ((upRecurse okHandlers tgt fuel g c).found = none →
        tgt.matchesTop (upRecurse okHandlers tgt fuel g c).c = false ∧
        ((upRecurse okHandlers tgt fuel g c).ts.length = fuel ∨
          (upRecurse okHandlers tgt fuel g c).c.containsT tgt = false)) := by
  intro fuel
  induction fuel with
  | zero =>
    intro g c
    by_cases hm : tgt.matchesTop c = true
    · rw [upRecurse_match tgt 0 g c hm]
      refine ⟨by simp, fun m hf => ⟨hf, hm⟩, ?_, ?_⟩
      · intro hnc
        simp [matchesTop_contains c tgt hm] at hnc
      · intro hfound
        obtain ⟨x, hx⟩ := matchesTop_top_some c tgt hm
        dsimp only at hfound
        simp [hx] at hfound
    · simp only [Bool.not_eq_true] at hm
      rw [upRecurse_zero_nomatch tgt g c hm]
      refine ⟨by simp, ?_, ?_, ?_⟩
      · intro m hf; simp at hf
      · intro _; exact ⟨rfl, rfl, rfl⟩
      · intro _; exact ⟨hm, Or.inl rfl⟩
  | succ f ih =>
    intro g c
    by_cases hm : tgt.matchesTop c = true
    · rw [upRecurse_match tgt (f + 1) g c hm]
      refine ⟨by simp, fun m hf => ⟨hf, hm⟩, ?_, ?_⟩
      · intro hnc
        simp [matchesTop_contains c tgt hm] at hnc
      · intro hfound
        obtain ⟨x, hx⟩ := matchesTop_top_some c tgt hm
        dsimp only at hfound
        simp [hx] at hfound
    · simp only [Bool.not_eq_true] at hm
      by_cases hc : c.containsT tgt = true
      · rcases hr : (processTransition okHandlers g c
            (getAct c.stack (c.topIndex - 1)) .pop).res with e | t
        · have h0 := processTransition_okH_res g c (getAct c.stack (c.topIndex - 1)) .pop
          rw [hr] at h0
          simp [isOkE] at h0
        · rw [upRecurse_step tgt f g c hm hc t hr]
          obtain ⟨ih1, ih2, ih3, ih4⟩ := ih
            (processTransition okHandlers g c (getAct c.stack (c.topIndex - 1)) .pop).g
            (processTransition okHandlers g c (getAct c.stack (c.topIndex - 1)) .pop).c
          refine ⟨by simpa using Nat.succ_le_succ ih1, fun m hf => ih2 m hf, ?_, ?_⟩
          · intro hnc
            simp [hnc] at hc
          · intro hfound
            obtain ⟨hmf, hor⟩ := ih4 hfound
            refine ⟨hmf, ?_⟩
            rcases hor with h1 | h2
            · left; simp [h1]
            · right; exact h2
      · simp only [Bool.not_eq_true] at hc
        rw [upRecurse_bail tgt f g c hm hc]
        refine ⟨by simp, ?_, ?_, ?_⟩
        · intro m hf; simp at hf
        · intro _; exact ⟨rfl, rfl, rfl⟩
        · intro _; exact ⟨hm, Or.inr hc⟩

/-- C4: `upAsync` pops at most 1000 times; when it resolves with a found
activity, that activity is the final foreground and matches the target
(identity or `instanceof`); when the target is not contained in the
active region it resolves with no result, popping nothing and leaving
the stack untouched; and a no-result resolution happens only at a
non-matching foreground with the 1000-pop bound exhausted or the target
no longer contained. -/
theorem C4_up_bound (g : Globals) (c : StackCore) (tgt : Target) :
    (upAsync okHandlers g c tgt).res = .ok () ∧
    (upAsync okHandlers g c tgt).ts.length ≤ 1000 ∧
    (∀ m, (upAsync okHandlers g c tgt).found = some m →
      (upAsync okHandlers g c tgt).c.top = some m ∧
      tgt.matchesTop (upAsync okHandlers g c tgt).c = true) ∧
    (c.containsT tgt = false →
      (upAsync okHandlers g c tgt).found = none ∧
      (upAsync okHandlers g c tgt).ts = [] ∧
      (upAsync okHandlers g c tgt).c = c) ∧
    ((upAsync okHandlers g c tgt).found = none →
      tgt.matchesTop (upAsync okHandlers g c tgt).c = false ∧
      ((upAsync okHandlers g c tgt).ts.length = 1000 ∨
        (upAsync okHandlers g c tgt).c.containsT tgt = false)) := by
  refine ⟨upAsync_okH_res g c tgt, ?_⟩
  unfold upAsync
  exact upRecurse_spec tgt 1000 _ c

def w4X : Activity := .base ⟨31, false, false, false, false, none, []⟩
def w4Y : Activity := .base ⟨32, false, false, false, false, none, []⟩
def w4Core : StackCore := ⟨[w4X, w4Y], 1, ["_A0", "_A1"]⟩

theorem C4_up_bound_witness :
    (upAsync okHandlers ⟨0, 0, none⟩ w4Core (.inst w4X)).c.top = some w4X ∧
    (upAsync okHandlers ⟨0, 0, none⟩ ⟨[], -1, []⟩ (.inst w4X)).found = none :=
  ⟨((C4_up_bound ⟨0, 0, none⟩ w4Core (.inst w4X)).2.2.1 w4X (by decide)).1,
   ((C4_up_bound ⟨0, 0, none⟩ ⟨[], -1, []⟩ (.inst w4X)).2.2.2.1 (by decide)).1⟩

def cx5A : Activity := .base ⟨1, false, false, false, false, none, []⟩
def cx5B : Activity := .instParent ⟨2, false, false, false, false, none, []⟩ cx5A
def cx5B1 : Activity := .base ⟨60, false, false, false, false, none, []⟩
def cx5B2 : Activity := .base ⟨61, false, false, false, false, none, []⟩

/-- Initial joint state for the interleaving counterexample: shared
globals, stack 1 empty, stack 2 holding two activities. -/
def cx5Init : TwoState :=
  ⟨⟨0, 0, none⟩, ⟨[], -1, []⟩, ⟨[cx5B1, cx5B2], 1, ["_A0", "_A1"]⟩⟩

/-- C5 counterexample: stack 1 runs `pushAsync(cx5B)` (two chained push
steps, for `cx5A` then `cx5B`); stack 2 runs `popAsync()` between the
two steps.  Stack 1's operation commits transitions with ids 0 and 2,
and the second one's `previous` is transition 1 — stack 2's pop — not
stack 1's own first transition, so the claimed per-operation chaining
fails under cross-instance interleaving. -/
theorem C5_chain_counterexample :
    (runSched okHandlers cx5Init (pushBlocks ⟨[], -1, []⟩ cx5B) popBlocks
        [true, false, true]).2.1.map (fun t => (t.tid, t.prev)) =
      [(0, none), (2, some 1)] ∧
    (runSched okHandlers cx5Init (pushBlocks ⟨[], -1, []⟩ cx5B) popBlocks
        [true, false, true]).2.2.map (fun t => t.tid) = [1] ∧
    ¬((runSched okHandlers cx5Init (pushBlocks ⟨[], -1, []⟩ cx5B) popBlocks
        [true, false, true]).2.1.map (fun t => t.prev) = [none, some 0]) := by
  decide

theorem upRecurse_chained (h : Handlers) (tgt : Target) :
    ∀ (fuel : Nat) (g : Globals) (c : StackCore),
      chainedFrom (upRecurse h tgt fuel g c).ts g.prevTransition = true := by
  intro fuel
  induction fuel with
  | zero =>
    intro g c
    unfold upRecurse
    split <;> simp [chainedFrom]
  | succ f ih =>
    intro g c
    unfold upRecurse
    split
    · simp [chainedFrom]
    · split
      · rcases hr : (processTransition h g c (getAct c.stack (c.topIndex - 1)) .pop).res
          with e | t
        · simp only [hr]
          simp [chainedFrom]
        · simp only [hr]
          have hfields := processTransition_ok_fields h g c _ .pop t hr
          have hgprev := processTransition_g_prev h g c
            (getAct c.stack (c.topIndex - 1)) .pop
          have ihh := ih
            (processTransition h g c (getAct c.stack (c.topIndex - 1)) .pop).g
            (processTransition h g c (getAct c.stack (c.topIndex - 1)) .pop).c
          rw [hgprev] at ihh
          simp [chainedFrom, hfields, ihh]
      · simp [chainedFrom]

theorem runTransitions_chained (h : Handlers) :
    ∀ (steps : List (Activity × Operation)) (g : Globals) (c : StackCore),
      chainedFrom (runTransitions h g c steps).ts g.prevTransition = true
  | [], g, c => by simp [runTransitions, chainedFrom]
  | (a, op) :: rest, g, c => by
    simp only [runTransitions]
    rcases hr : (processTransition h g c (some a) op).res with e | t
    · simp [chainedFrom]
    · have hfields := processTransition_ok_fields h g c (some a) op t hr
      have hgprev := processTransition_g_prev h g c (some a) op
      have ih := runTransitions_chained h rest (processTransition h g c (some a) op).g
        (processTransition h g c (some a) op).c
      rw [hgprev] at ih
      simp [chainedFrom, hfields, ih]

/-- C5 (amended): within one top-level call with no interleaved
operations — and, for `pushAsync`/`replaceAsync`, a root/hub/transient
pre-step that commits no transitions — the first committed transition
has `previous` unset and each later one links to its predecessor.
Under interleaving with another stack instance the property fails, since
the chain head is a single module-level variable (see the
counterexample). -/
theorem C5_previous_chain (h : Handlers) (g : Globals) (c : StackCore)
    (a : Activity) (act : Option Activity) (tgt : Target) :
    chainedFrom (popAsync h g c act).ts none = true ∧
    chainedFrom (upAsync h g c tgt).ts none = true ∧
    ((upToHubOrRoot h g c a).ts = [] →
      chainedFrom (pushAsync h g c a).ts none = true) ∧
    ((upToHubOrRoot h g c a).ts = [] →
      chainedFrom (replaceAsync h g c a).ts none = true) := by
  refine ⟨?_, ?_, ?_, ?_⟩
  · unfold popAsync
    split
    · simp [chainedFrom]
    · split
      · simp [chainedFrom]
      · rcases hr : (processTransition h { g with prevTransition := none } c
            (getAct c.stack (c.topIndex - 1)) .pop).res with e | t
        · simp [hr, chainedFrom]
        · have hfields := processTransition_ok_fields h { g with prevTransition := none }
            c _ .pop t hr
          simp [hr, chainedFrom, hfields]
  · unfold upAsync
    have := upRecurse_chained h tgt 1000 { g with prevTransition := none } c
    simpa using this
  · intro hpre
    unfold pushAsync
    rcases hok : (upToHubOrRoot h g c a).res with e | u
    · simp [hok, chainedFrom, hpre]
    · have := runTransitions_chained h
        ((findParents (upToHubOrRoot h g c a).c a false).map fun x => (x, Operation.push))
        { (upToHubOrRoot h g c a).g with prevTransition := none }
        (upToHubOrRoot h g c a).c
      simp only [hok]
      simpa [hpre] using this
  · intro hpre
    unfold replaceAsync
    rcases hok : (upToHubOrRoot h g c a).res with e | u
    · simp [hok, chainedFrom, hpre]
    · simp only [hok]
      split
      · rcases hr : (processTransition h
            { (upToHubOrRoot h g c a).g with prevTransition := none }
            (upToHubOrRoot h g c a).c (some a) .pop).res with e2 | t
        · simp [hr, chainedFrom, hpre]
        · have hfields := processTransition_ok_fields h
            { (upToHubOrRoot h g c a).g with prevTransition := none }
            (upToHubOrRoot h g c a).c (some a) .pop t hr
          simp [hr, chainedFrom, hfields, hpre]
      · have := runTransitions_chained h
          (match findParents (upToHubOrRoot h g c a).c a true with
           | [] => []
           | x :: rest =>
             (x, if (upToHubOrRoot h g c a).c.topIndex < 0 then Operation.push
               else Operation.replace) :: rest.map fun y => (y, Operation.push))
          { (upToHubOrRoot h g c a).g with prevTransition := none }
          (upToHubOrRoot h g c a).c
        simpa [hpre] using this

theorem C5_previous_chain_witness :
    chainedFrom (pushAsync okHandlers ⟨0, 0, none⟩ ⟨[], -1, []⟩
      (.instParent w3C (.instParent w3B (.base w3A)))).ts none = true :=
  (C5_previous_chain okHandlers ⟨0, 0, none⟩ ⟨[], -1, []⟩
    (.instParent w3C (.instParent w3B (.base w3A))) none
    (.inst (.base w3A))).2.2.1 (by decide)

theorem Activity.sameRef_comm (a b : Activity) : a.sameRef b = b.sameRef a := by
  unfold Activity.sameRef
  by_cases hab : a.idn = b.idn
  · simp [hab]
  · simp [hab, Ne.symm hab]

theorem mem_active_of_getAct (c : StackCore) (i : Int) (x : Activity)
    (hi : 0 ≤ i) (hlt : i < c.topIndex + 1) (hx : getAct c.stack i = some x) :
    x ∈ c.active := by
  unfold getAct at hx
  rw [if_neg (by omega)] at hx
  have hlt2 : i.toNat < (c.topIndex + 1).toNat := by omega
  have hx2 : (c.stack.take (c.topIndex + 1).toNat).get? i.toNat = some x := by
    rw [List.get?_take hlt2]; exact hx
  exact List.get?_mem hx2

/-- C6 (amended): on a stack whose active region is `[X, Y]` with `Y`
the foreground, `replaceAsync(X)` commits exactly one transition, a
`Pop` with `to = X`, decrementing `topIndex` by one and leaving `X` the
foreground, provided the root/hub/transient pre-step of the call commits
nothing and changes nothing. -/
theorem C6_replace_as_pop (g : Globals) (c : StackCore) (X Y : Activity)
    (htid : c.topIndex = 1)
    (h0 : getAct c.stack 0 = some X)
    (h1 : getAct c.stack 1 = some Y)
    (hxy : X.sameRef Y = false)
    (hpc : (upToHubOrRoot okHandlers g c X).c = c)
    (hpts : (upToHubOrRoot okHandlers g c X).ts = []) :
    (replaceAsync okHandlers g c X).ts.map (fun t => t.op) = [.pop] ∧
    (replaceAsync okHandlers g c X).ts.map (fun t => t.toAct) = [some X] ∧
    (replaceAsync okHandlers g c X).c.stack = c.stack ∧
    (replaceAsync okHandlers g c X).c.historyIds = c.historyIds ∧
    (replaceAsync okHandlers g c X).c.topIndex = 0 ∧
    (replaceAsync okHandlers g c X).c.top = some X ∧
    isOkE (replaceAsync okHandlers g c X).res = true := by
  have hres := upToHubOrRoot_okH_res g c X
  have htop : c.top = some Y := by
    unfold StackCore.top
    rw [htid]; exact h1
  have hsc : optSameRef c.top (some X) = false := by
    rw [htop]
    simpa [optSameRef, Activity.sameRef_comm Y X] using hxy
  have hcc : c.containsT (.inst X) = true := by
    unfold StackCore.containsT
    rw [List.any_eq_true]
    exact ⟨X, mem_active_of_getAct c 0 X (by omega) (by omega) h0,
      Activity.sameRef_refl X⟩
  have hbelow : getAct c.stack (c.topIndex - 1) = some X := by
    rw [htid]; simpa using h0
  unfold replaceAsync
  simp only [hres]
  rw [hpc]
  have hcond : (!decide (c.topIndex < 0) &&
      optSameRef (getAct c.stack (c.topIndex - 1)) (some X)) = true := by
    rw [hbelow, htid]
    simp [optSameRef, Activity.sameRef_refl]
  rw [hcond]
  simp only [if_true, reduceIte]
  rw [processTransition_pop_resume _ c X hsc hcc]
  simp only [hpts]
  simp [htid, isOkE, Except.map, StackCore.top, h0]

def cx6Z : Activity := .base ⟨20, false, false, false, false, none, []⟩
def cx6X : Activity := .clsParent ⟨21, false, true, false, false, none, [5]⟩ 5 cx6Z
def cx6Y : Activity := .base ⟨22, false, false, false, false, none, []⟩
def cx6Core : StackCore := ⟨[cx6X, cx6Y], 1, ["_A0", "_A1"]⟩

/-- C6 counterexample: the active region is `[cx6X, cx6Y]` with `cx6Y`
the foreground, but `cx6X` declares its parent as a class whose nearest
instance below the top is `cx6X` itself, flagged hub: the pre-step walks
up to `cx6X` first, and the call then commits a `Replace` (of the fresh
`getInstance()` activity `cx6Z`) and a `Push` after its initial `Pop` —
not exactly one `Pop` — and `topIndex` ends unchanged at 1. -/
theorem C6_replace_counterexample :
    ¬((replaceAsync okHandlers ⟨0, 0, none⟩ cx6Core cx6X).ts.map
        (fun t => t.op) = [.pop]) ∧
    (replaceAsync okHandlers ⟨0, 0, none⟩ cx6Core cx6X).ts.map (fun t => t.op) =
      [.pop, .replace, .push] ∧
    (replaceAsync okHandlers ⟨0, 0, none⟩ cx6Core cx6X).c.topIndex = 1 := by
  decide

def w6X : Activity := .base ⟨41, false, false, false, false, none, []⟩
def w6Y : Activity := .base ⟨42, false, false, false, false, none, []⟩
def w6Core : StackCore := ⟨[w6X, w6Y], 1, ["_A0", "_A1"]⟩

theorem C6_replace_as_pop_witness :
    (replaceAsync okHandlers ⟨0, 0, none⟩ w6Core w6X).ts.map (fun t => t.op) =
      [.pop] ∧
    (replaceAsync okHandlers ⟨0, 0, none⟩ w6Core w6X).c.top = some w6X :=
  have h := C6_replace_as_pop ⟨0, 0, none⟩ w6Core w6X w6Y (by decide) (by decide)
    (by decide) (by decide) (by decide) (by decide)
  ⟨h.1, h.2.2.2.2.2.1⟩

/-- Modelled from the claim's words, for comparison with the source: the
nearest NON-EMPTY title scanning downward (the list argument is the
active region top-first). -/
def firstNonEmptyTitle : List Activity → Option String
  | [] => none
  | a :: rest =>
    match a.title with
    | some t => if t ≠ "" then some t else firstNonEmptyTitle rest
    | none => firstNonEmptyTitle rest

/-- The nearest DEFINED title scanning downward (the list argument is
the active region top-first); this is what the source's `!== undefined`
check computes. -/
def firstDefinedTitle : List Activity → Option String
  | [] => none
  | a :: rest =>
    match a.title with
    | some t => some t
    | none => firstDefinedTitle rest

theorem titleFromOpt_eq (stack : List Activity) :
    ∀ n : Nat, titleFromOpt stack n = firstDefinedTitle (stack.take n).reverse := by
  intro n
  induction n with
  | zero => rfl
  | succ n ih =>
    rcases hx : stack.get? n with _ | a
    · have hle : stack.length ≤ n := by
        simpa using List.get?_eq_none.mp hx
      unfold titleFromOpt
      rw [hx, ih, List.take_of_length_le hle, List.take_of_length_le (by omega)]
    · unfold titleFromOpt
      rw [hx, List.take_succ, show stack[n]? = some a from by
        rw [← List.get?_eq_getElem?]; exact hx]
      simp only [Option.toList_some, List.reverse_append, List.reverse_cons,
        List.reverse_nil, List.nil_append, List.singleton_append]
      unfold firstDefinedTitle
      rcases a.title with _ | t <;> simp [ih]

def cx9A : Activity := .base ⟨70, false, false, false, false, some "x", []⟩
def cx9B : Activity := .base ⟨71, false, false, false, false, some "", []⟩
def cx9Core : StackCore := ⟨[cx9A, cx9B], 1, ["_A0", "_A1"]⟩

/-- C9 counterexample: the foreground's title is the EMPTY string and
the activity below carries "x".  The nearest non-empty title scanning
downward is "x", but the accessor returns "" because the source only
checks `title !== undefined`, not non-emptiness. -/
theorem C9_title_counterexample :
    StackCore.title cx9Core = "" ∧
    firstNonEmptyTitle cx9Core.active.reverse = some "x" ∧
    ¬(StackCore.title cx9Core = (firstNonEmptyTitle cx9Core.active.reverse).getD "") := by
  decide

/-- C9 (amended): the `title` accessor returns the title of the nearest
activity at or below `topIndex` whose title is DEFINED — an empty-string
title is returned as is — and the empty string when no active entry has
a defined title. -/
theorem C9_title_nearest_defined (c : StackCore) :
    StackCore.title c = (firstDefinedTitle c.active.reverse).getD "" := by
  unfold StackCore.title StackCore.active
  rw [titleFromOpt_eq]

/-- Number of leading background activities of a list. -/
def bgPrefixLen : List Activity → Nat
  | [] => 0
  | a :: r => if a.isBackgroundActivity then bgPrefixLen r + 1 else 0

theorem bgPrefixLen_le (l : List Activity) : bgPrefixLen l ≤ l.length := by
  induction l with
  | nil => simp [bgPrefixLen]
  | cons a r ih =>
    unfold bgPrefixLen
    split <;> simp <;> omega

theorem find?_nonBg_eq_get_bgPrefix (l : List Activity) :
    (l.find? fun a => !a.isBackgroundActivity) = l.get? (bgPrefixLen l) := by
  induction l with
  | nil => rfl
  | cons a r ih =>
    by_cases hb : a.isBackgroundActivity = true
    · simp [List.find?, hb, bgPrefixLen, ih]
    · simp only [Bool.not_eq_true] at hb
      simp [List.find?, hb, bgPrefixLen]

theorem lastIndexOf_not_mem (l : List String) (x : String) (hx : x ∉ l) :
    lastIndexOf l x = -1 := by
  unfold lastIndexOf
  have hfil : l.enum.filter (fun p => p.2 == x) = [] := by
    rw [List.filter_eq_nil_iff]
    rintro ⟨i, s⟩ hmem hbeq
    simp only [beq_iff_eq] at hbeq
    subst hbeq
    exact hx (List.snd_mem_of_mem_enum hmem)
  rw [hfil]
  rfl

theorem bgPrefixLen_cons_bg (a : Activity) (r : List Activity)
    (hb : a.isBackgroundActivity = true) :
    bgPrefixLen (a :: r) = bgPrefixLen r + 1 := by
  simp [bgPrefixLen, hb]

theorem bgPrefixLen_cons_fg (a : Activity) (r : List Activity)
    (hb : a.isBackgroundActivity = false) :
    bgPrefixLen (a :: r) = 0 := by
  simp [bgPrefixLen, hb]

theorem skipBg_spec (stack : List Activity) (top : Int)
    (hlen : top < (stack.length : Int)) :
    ∀ (fuel : Nat) (idx : Int), -1 ≤ idx → idx ≤ top → fuel = (top - idx).toNat →
      skipBg stack top fuel idx =
        idx + 1 +
          (bgPrefixLen ((stack.take (top + 1).toNat).drop (idx + 1).toNat) : Int) := by
  intro fuel
  induction fuel with
  | zero =>
    intro idx h1 h2 h3
    have hit : idx = top := by omega
    subst hit
    have hnil : (stack.take (idx + 1).toNat).drop (idx + 1).toNat = [] := by
      apply List.drop_eq_nil_of_le
      simpa using Nat.min_le_left _ _
    unfold skipBg
    rw [hnil]
    simp [bgPrefixLen]
  | succ f ih =>
    intro idx h1 h2 h3
    have hj : idx + 1 ≤ top := by omega
    have hidx : (idx + 1).toNat < stack.length := by omega
    rcases hg : stack.get? (idx + 1).toNat with _ | x
    · rw [List.get?_eq_none] at hg
      omega
    · have hget : getAct stack (idx + 1) = some x := by
        unfold getAct
        rw [if_neg (by omega)]
        exact hg
      have h9 : (stack.take (top + 1).toNat)[(idx + 1).toNat]? = some x := by
        rw [List.getElem?_take_of_lt (show (idx + 1).toNat < (top + 1).toNat by omega)]
        rw [← List.get?_eq_getElem?]
        exact hg
      obtain ⟨hh, heq⟩ := List.getElem?_eq_some.mp h9
      have hnext : ((idx + 1).toNat + 1) = (idx + 1 + 1).toNat := by omega
      have hregion : (stack.take (top + 1).toNat).drop (idx + 1).toNat =
          x :: (stack.take (top + 1).toNat).drop (idx + 1 + 1).toNat := by
        rw [List.drop_eq_getElem_cons hh, heq, hnext]
      by_cases hb : x.isBackgroundActivity = true
      · have hcondT : (decide (idx + 1 ≤ top) &&
            (match getAct stack (idx + 1) with
             | some a => a.isBackgroundActivity
             | none => false)) = true := by
          rw [hget]
          simp [hj, hb]
        unfold skipBg
        dsimp only
        rw [hcondT]
        simp only [if_true, reduceIte]
        rw [ih (idx + 1) (by omega) (by omega) (by omega)]
        rw [hregion, bgPrefixLen_cons_bg x _ hb]
        push_cast
        ring
      · have hcondF : (decide (idx + 1 ≤ top) &&
            (match getAct stack (idx + 1) with
             | some a => a.isBackgroundActivity
             | none => false)) = false := by
          rw [hget]
          simp [hb]
        unfold skipBg
        dsimp only
        rw [hcondF]
        simp only [Bool.false_eq_true, if_false, reduceIte]
        rw [hregion]
        simp only [Bool.not_eq_true] at hb
        rw [bgPrefixLen_cons_fg x _ hb]
        simp

/-- C10: `getHistoryAfter` with a non-empty id absent from the
history-id sequence returns `undefined`; with the empty string the
not-found check is skipped (a falsy id) and the scan starts at the
bottom, returning a snapshot of the first non-background activity at or
below `topIndex` — `undefined` exactly when every active entry is a
background activity or the stack is empty.  The hypotheses record the
reachable-state invariants that `topIndex` stays within the stack array
and that minted history ids are never the empty string. -/
theorem C10_history_after (c : StackCore)
    (hlen : c.topIndex < (c.stack.length : Int))
    (hno : "" ∉ c.historyIds) :
    (∀ hid : String, hid ≠ "" → hid ∉ c.historyIds → getHistoryAfter c hid = none) ∧
    (getHistoryAfter c "").map (fun e => e.activity) =
      (c.active.find? fun a => !a.isBackgroundActivity).map (fun a => some a) ∧
    (getHistoryAfter c "" = none ↔
      (c.active.find? fun a => !a.isBackgroundActivity) = none) := by
  have hmain : (getHistoryAfter c "").map (fun e => e.activity) =
      (c.active.find? fun a => !a.isBackgroundActivity).map (fun a => some a) ∧
      (getHistoryAfter c "" = none ↔
        (c.active.find? fun a => !a.isBackgroundActivity) = none) := by
    unfold getHistoryAfter
    rw [lastIndexOf_not_mem _ _ hno]
    rw [if_neg (by simp)]
    dsimp only
    by_cases htneg : c.topIndex < 0
    · have hfuel : (c.topIndex - -1).toNat = 0 := by omega
      have hact : c.active = [] := by
        unfold StackCore.active
        rw [show (c.topIndex + 1).toNat = 0 from by omega]
        rfl
      rw [hfuel]
      have hskip : skipBg c.stack c.topIndex 0 (-1) = 0 := by
        unfold skipBg
        norm_num
      rw [hskip, if_pos (by omega), hact]
      simp [List.find?]
    · push_neg at htneg
      have hskip := skipBg_spec c.stack c.topIndex hlen (c.topIndex - -1).toNat (-1)
        (by omega) (by omega) rfl
      have hdrop0 : ((-1 : Int) + 1).toNat = 0 := by omega
      rw [hdrop0, List.drop_zero] at hskip
      have hactive : c.stack.take (c.topIndex + 1).toNat = c.active := rfl
      rw [hactive] at hskip
      have hactlen : c.active.length = (c.topIndex + 1).toNat := by
        unfold StackCore.active
        rw [List.length_take]
        omega
      rw [hskip]
      by_cases hK : bgPrefixLen c.active < c.active.length
      · have hjle : ¬(c.topIndex < -1 + 1 + (bgPrefixLen c.active : Int)) := by omega
        rw [if_neg hjle]
        obtain ⟨x, hx⟩ : ∃ x, c.active.get? (bgPrefixLen c.active) = some x := by
          rcases hgx : c.active.get? (bgPrefixLen c.active) with _ | y
          · rw [List.get?_eq_none] at hgx
            omega
          · exact ⟨y, rfl⟩
        have hfind : (c.active.find? fun a => !a.isBackgroundActivity) = some x := by
          rw [find?_nonBg_eq_get_bgPrefix]
          exact hx
        have hgact : getAct c.stack (-1 + 1 + (bgPrefixLen c.active : Int)) = some x := by
          unfold getAct
          rw [if_neg (by omega)]
          rw [show ((-1 : Int) + 1 + (bgPrefixLen c.active : Int)).toNat =
            bgPrefixLen c.active from by omega]
          have htake := List.get?_take
            (l := c.stack) (show bgPrefixLen c.active < (c.topIndex + 1).toNat by omega)
          rw [← htake]
          exact hx
        rw [hgact]
        constructor
        · simp [hfind]
        · simp [hfind]
      · have hjgt : c.topIndex < -1 + 1 + (bgPrefixLen c.active : Int) := by omega
        rw [if_pos hjgt]
        have hfind : (c.active.find? fun a => !a.isBackgroundActivity) = none := by
          rw [find?_nonBg_eq_get_bgPrefix, List.get?_eq_none]
          omega
        simp [hfind]
  refine ⟨?_, hmain.1, hmain.2⟩
  intro hid hne hnotin
  unfold getHistoryAfter
  rw [lastIndexOf_not_mem _ _ hnotin]
  rw [if_pos ⟨hne, by norm_num⟩]

def w10Bg : Activity := .base ⟨50, false, false, false, true, none, []⟩
def w10Fg : Activity := .base ⟨51, false, false, false, false, some "T", []⟩
def w10Core : StackCore := ⟨[w10Bg, w10Fg], 1, ["_A0", "_A1"]⟩

theorem C10_history_after_witness :
    getHistoryAfter w10Core "zzz" = none ∧
    (getHistoryAfter w10Core "").map (fun e => e.activity) = some (some w10Fg) :=
  have h := C10_history_after w10Core (by decide) (by decide)
  ⟨h.1 "zzz" (by decide) (by decide), h.2.1.trans (by decide)⟩

end Typescene
